import Mathlib

/-!
Verification development for the pour-bot stepper-motor driver
(`src/main/stepper.cpp`, entry point `src/main/pour_bot_main.cpp`).

The driver is embedded shallowly:

* C `int` fields (`step_number`, `direction`, `number_of_steps`) are `Int`;
  the microsecond timestamps and the step interval are `Nat`, with the
  unsigned 32-bit wrap-around of `now - last_step_time` made explicit by
  `usub` (the header `stepper.h` declaring the field types is not in the
  repository; following the spec, timestamps and the interval are
  nonnegative integer microsecond values).
* hardware effects become data: `gpio_set_level(pin, lvl)` calls are
  collected as `(pin, lvl)` pairs, and the single `gpio_config` call of a
  constructor is returned as the pin bit mask it receives.
* the busy-paced loop of `Stepper::step` samples the monotonic clock once
  per iteration, so it is driven by an explicit list of clock samples; the
  real loop spins until all steps are taken, the model simply stops when
  the sample list is exhausted (a run that took all its steps is
  recognised by the length of its transition trace).
* `Stepper::version` returns a constant and mutates nothing; it is a pure
  function here.

The constructors leave `step_delay` uninitialized (only `setSpeed` writes
it); the model takes its initial contents as an explicit argument.
-/

namespace PourBot

/-- Level written for a logically high pin (static `HIGH` in the source). -/
def HIGH : Nat := 1

/-- Level written for a logically low pin (static `LOW` in the source). -/
def LOW : Nat := 0

/-- Sentinel value `GPIO_NUM_MAX` of the ESP-IDF `gpio_num_t` enum (40 on
the ESP32 target), used by the source both for the unused pin slots of the
two- and four-wire constructors and as the default result of
`mapFromInt`. -/
def GPIO_NUM_MAX : Nat := 40

/-- Translation of `mapFromInt` (stepper.cpp lines 97-137): resolves a
logical pin number to a `gpio_num_t` handle; every integer not covered by
an explicit `case` falls through to `GPIO_NUM_MAX`. -/
def mapFromInt : Int → Nat
  | 0 => 0
  | 1 => 1
  | 2 => 2
  | 3 => 3
  | 4 => 4
  | 5 => 5
  | 6 => 6
  | 7 => 7
  | 8 => 8
  | 9 => 9
  | 10 => 10
  | 11 => 11
  | 12 => 12
  | 13 => 13
  | 14 => 14
  | 15 => 15
  | 16 => 16
  | 17 => 17
  | 18 => 18
  | 19 => 19
  | 21 => 21
  | 22 => 22
  | 23 => 23
  | 25 => 25
  | 26 => 26
  | 27 => 27
  | 32 => 32
  | 33 => 33
  | 34 => 34
  | 35 => 35
  | 36 => 36
  | 37 => 37
  | 38 => 38
  | 39 => 39
  | _ => GPIO_NUM_MAX

/-- State of one `Stepper` object: the fields assigned by the constructors
and mutated by `setSpeed` and `step`. -/
structure Stepper where
  step_number : Int
  direction : Int
  last_step_time : Nat
  number_of_steps : Int
  step_delay : Nat
  pin_count : Nat
  motor_pin_1 : Nat
  motor_pin_2 : Nat
  motor_pin_3 : Nat
  motor_pin_4 : Nat
  motor_pin_5 : Nat
deriving DecidableEq

/-- Two-wire constructor (stepper.cpp lines 143-176).  Returns the
constructed object together with the `pin_bit_mask` passed to
`gpio_config` (built, as in the source, from the raw integer pin numbers,
not from the resolved handles).  `step_delay0` stands for the contents of
the `step_delay` field, which the constructor leaves uninitialized. -/
def mkTwoWire (number_of_steps : Int) (p1 p2 : Int) (step_delay0 : Nat) :
    Stepper × Nat :=
  ({ step_number := 0
     direction := 0
     last_step_time := 0
     number_of_steps := number_of_steps
     step_delay := step_delay0
     pin_count := 2
     motor_pin_1 := mapFromInt p1
     motor_pin_2 := mapFromInt p2
     motor_pin_3 := GPIO_NUM_MAX
     motor_pin_4 := GPIO_NUM_MAX
     motor_pin_5 := GPIO_NUM_MAX },
   (1 <<< p1.toNat) ||| (1 <<< p2.toNat))

/-- Four-wire constructor (stepper.cpp lines 183-217); see `mkTwoWire`. -/
def mkFourWire (number_of_steps : Int) (p1 p2 p3 p4 : Int)
    (step_delay0 : Nat) : Stepper × Nat :=
  ({ step_number := 0
     direction := 0
     last_step_time := 0
     number_of_steps := number_of_steps
     step_delay := step_delay0
     pin_count := 4
     motor_pin_1 := mapFromInt p1
     motor_pin_2 := mapFromInt p2
     motor_pin_3 := mapFromInt p3
     motor_pin_4 := mapFromInt p4
     motor_pin_5 := GPIO_NUM_MAX },
   (1 <<< p1.toNat) ||| (1 <<< p2.toNat) ||| (1 <<< p3.toNat) |||
     (1 <<< p4.toNat))

/-- Five-phase five-wire constructor (stepper.cpp lines 223-256); see
`mkTwoWire`. -/
def mkFiveWire (number_of_steps : Int) (p1 p2 p3 p4 p5 : Int)
    (step_delay0 : Nat) : Stepper × Nat :=
  ({ step_number := 0
     direction := 0
     last_step_time := 0
     number_of_steps := number_of_steps
     step_delay := step_delay0
     pin_count := 5
     motor_pin_1 := mapFromInt p1
     motor_pin_2 := mapFromInt p2
     motor_pin_3 := mapFromInt p3
     motor_pin_4 := mapFromInt p4
     motor_pin_5 := mapFromInt p5 },
   (1 <<< p1.toNat) ||| (1 <<< p2.toNat) ||| (1 <<< p3.toNat) |||
     (1 <<< p4.toNat) ||| (1 <<< p5.toNat))

/-- Translation of the driver's time source `micros` (stepper.cpp lines
261-267): `(elapsedClocks / CLOCKS_PER_SEC) * 1000000` with integer
division, computed in the 32-bit `clock_t`/`long` arithmetic of the ESP32
target, so the product wraps modulo `2 ^ 32` once the reading passes
about 4295 seconds of CPU time.  The reduced value is exactly the bit
pattern the loop's `unsigned long now` consumes.  Parameterised by the
underlying `clock()` reading and the platform constant
`CLOCKS_PER_SEC`. -/
def micros (elapsedClocks clocksPerSec : Nat) : Nat :=
  elapsedClocks / clocksPerSec * 1000000 % 2 ^ 32

/-- Translation of `Stepper::setSpeed` (stepper.cpp lines 272-276):
`step_delay = 60L * 1000L * 1000L / number_of_steps / whatSpeed` with C
truncating division, stored into the unsigned 32-bit `step_delay` field
(conversion of a signed `long` to `unsigned long` reduces mod `2 ^ 32`). -/
def Stepper.setSpeed (s : Stepper) (whatSpeed : Int) : Stepper :=
  { s with
    step_delay :=
      ((((60 * 1000 * 1000 : Int).tdiv s.number_of_steps).tdiv
          whatSpeed).emod (2 ^ 32)).toNat }

/-- Translation of `Stepper::stepMotor` (stepper.cpp lines 333-460): the
list of `gpio_set_level(pin, level)` calls it performs, in order.  Each
wiring variant has its own `switch`; an out-of-range `thisStep` matches no
`case` and writes nothing. -/
def Stepper.stepMotor (s : Stepper) (thisStep : Int) : List (Nat × Nat) :=
  (if s.pin_count = 2 then
    match thisStep with
    | 0 => [(s.motor_pin_1, LOW), (s.motor_pin_2, HIGH)]
    | 1 => [(s.motor_pin_1, HIGH), (s.motor_pin_2, HIGH)]
    | 2 => [(s.motor_pin_1, HIGH), (s.motor_pin_2, LOW)]
    | 3 => [(s.motor_pin_1, LOW), (s.motor_pin_2, LOW)]
    | _ => []
  else []) ++
  (if s.pin_count = 4 then
    match thisStep with
    | 0 => [(s.motor_pin_1, HIGH), (s.motor_pin_2, LOW),
            (s.motor_pin_3, HIGH), (s.motor_pin_4, LOW)]
    | 1 => [(s.motor_pin_1, LOW), (s.motor_pin_2, HIGH),
            (s.motor_pin_3, HIGH), (s.motor_pin_4, LOW)]
    | 2 => [(s.motor_pin_1, LOW), (s.motor_pin_2, HIGH),
            (s.motor_pin_3, LOW), (s.motor_pin_4, HIGH)]
    | 3 => [(s.motor_pin_1, HIGH), (s.motor_pin_2, LOW),
            (s.motor_pin_3, LOW), (s.motor_pin_4, HIGH)]
    | _ => []
  else []) ++
  (if s.pin_count = 5 then
    match thisStep with
    | 0 => [(s.motor_pin_1, LOW), (s.motor_pin_2, HIGH),
            (s.motor_pin_3, HIGH), (s.motor_pin_4, LOW),
            (s.motor_pin_5, HIGH)]
    | 1 => [(s.motor_pin_1, LOW), (s.motor_pin_2, HIGH),
            (s.motor_pin_3, LOW), (s.motor_pin_4, LOW),
            (s.motor_pin_5, HIGH)]
    | 2 => [(s.motor_pin_1, LOW), (s.motor_pin_2, HIGH),
            (s.motor_pin_3, LOW), (s.motor_pin_4, HIGH),
            (s.motor_pin_5, HIGH)]
    | 3 => [(s.motor_pin_1, LOW), (s.motor_pin_2, HIGH),
            (s.motor_pin_3, LOW), (s.motor_pin_4, HIGH),
            (s.motor_pin_5, LOW)]
    | 4 => [(s.motor_pin_1, HIGH), (s.motor_pin_2, HIGH),
            (s.motor_pin_3, LOW), (s.motor_pin_4, HIGH),
            (s.motor_pin_5, LOW)]
    | 5 => [(s.motor_pin_1, HIGH), (s.motor_pin_2, LOW),
            (s.motor_pin_3, LOW), (s.motor_pin_4, HIGH),
            (s.motor_pin_5, LOW)]
    | 6 => [(s.motor_pin_1, HIGH), (s.motor_pin_2, LOW),
            (s.motor_pin_3, HIGH), (s.motor_pin_4, HIGH),
            (s.motor_pin_5, LOW)]
    | 7 => [(s.motor_pin_1, HIGH), (s.motor_pin_2, LOW),
            (s.motor_pin_3, HIGH), (s.motor_pin_4, LOW),
            (s.motor_pin_5, LOW)]
    | 8 => [(s.motor_pin_1, HIGH), (s.motor_pin_2, LOW),
            (s.motor_pin_3, HIGH), (s.motor_pin_4, LOW),
            (s.motor_pin_5, HIGH)]
    | 9 => [(s.motor_pin_1, LOW), (s.motor_pin_2, LOW),
            (s.motor_pin_3, HIGH), (s.motor_pin_4, LOW),
            (s.motor_pin_5, HIGH)]
    | _ => []
  else [])

/-- Modulus of the 32-bit unsigned arithmetic in which the source compares
`now - last_step_time` against `step_delay` (ESP32 `unsigned long`). -/
def U32 : Nat := 2 ^ 32

/-- Unsigned 32-bit subtraction: the value of `now - last_step_time`
computed on `unsigned long` operands. -/
def usub (a b : Nat) : Nat :=
  (a % U32 + (U32 - b % U32)) % U32

/-- Update of `step_number` performed by one taken step of
`Stepper::step` (stepper.cpp lines 305-318): increment wrapping to 0 at
`number_of_steps` when `direction == 1`, otherwise decrement wrapping to
`number_of_steps - 1` below 0. -/
def nextStepNumber (direction number_of_steps step_number : Int) : Int :=
  if direction = 1 then
    if step_number + 1 = number_of_steps then 0 else step_number + 1
  else
    (if step_number = 0 then number_of_steps else step_number) - 1

/-- Record of one taken phase transition inside `Stepper::step`: the clock
sample `now` that was stored into `last_step_time`, the argument passed to
`stepMotor`, and the pin writes `stepMotor` performed. -/
structure TransitionEvent where
  now : Nat
  thisStep : Int
  writes : List (Nat × Nat)
deriving DecidableEq

/-- Body of the busy-paced `while (steps_left > 0)` loop of
`Stepper::step` (stepper.cpp lines 293-327), driven by the list of
successive `micros()` samples.  Each iteration consumes one sample; when
`now - last_step_time >= step_delay` (32-bit unsigned arithmetic) the loop
records the timestamp, updates `step_number`, calls
`stepMotor(step_number % 10)` for five-wire motors and
`stepMotor(step_number % 4)` otherwise, and decrements `steps_left`.  The
model returns the final state and the trace of taken transitions, and
stops early if the sample list runs out. -/
def stepLoop : List Nat → Stepper → Nat → Stepper × List TransitionEvent
  | _, s, 0 => (s, [])
  | [], s, _ + 1 => (s, [])
  | now :: rest, s, steps_left + 1 =>
    if s.step_delay ≤ usub now s.last_step_time then
      let s' : Stepper :=
        { s with
          last_step_time := now
          step_number :=
            nextStepNumber s.direction s.number_of_steps s.step_number }
      let thisStep : Int :=
        if s'.pin_count = 5 then s'.step_number.tmod 10
        else s'.step_number.tmod 4
      ((stepLoop rest s' steps_left).1,
        { now := now, thisStep := thisStep, writes := s'.stepMotor thisStep }
          :: (stepLoop rest s' steps_left).2)
    else
      stepLoop rest s (steps_left + 1)

/-- Translation of `Stepper::step` (stepper.cpp lines 282-328): sets
`direction` from the sign of `steps_to_move`, then runs the paced loop for
`abs(steps_to_move)` steps against the given clock samples. -/
def Stepper.step (s : Stepper) (steps_to_move : Int) (clocks : List Nat) :
    Stepper × List TransitionEvent :=
  let s1 := if steps_to_move > 0 then { s with direction := 1 } else s
  let s2 := if steps_to_move < 0 then { s1 with direction := 0 } else s1
  stepLoop clocks s2 steps_to_move.natAbs

/-- Translation of `Stepper::version` (stepper.cpp lines 465-468). -/
def Stepper.version (_ : Stepper) : Int := 1

/-- Wiring variants of the spec's data model. -/
inductive Wiring
  | twoWire
  | fourWire
  | fivePhaseFiveWire
deriving DecidableEq

/-- Cycle length of each wiring variant (spec section 4.1). -/
def cycleLength : Wiring → Nat
  | .twoWire => 4
  | .fourWire => 4
  | .fivePhaseFiveWire => 10

/-- Number of motor pins of each wiring variant. -/
def wiringPinCount : Wiring → Nat
  | .twoWire => 2
  | .fourWire => 4
  | .fivePhaseFiveWire => 5

/-- Modelled from the spec: the phase pattern tables of section 4.1,
mapping a phase index to the binary vector the spec says must be applied
to the pins in order.  Out-of-range indices are sent to the empty list. -/
def specPhaseTable : Wiring → Int → List Nat
  | .twoWire, 0 => [0, 1]
  | .twoWire, 1 => [1, 1]
  | .twoWire, 2 => [1, 0]
  | .twoWire, 3 => [0, 0]
  | .fourWire, 0 => [1, 0, 1, 0]
  | .fourWire, 1 => [0, 1, 1, 0]
  | .fourWire, 2 => [0, 1, 0, 1]
  | .fourWire, 3 => [1, 0, 0, 1]
  | .fivePhaseFiveWire, 0 => [0, 1, 1, 0, 1]
  | .fivePhaseFiveWire, 1 => [0, 1, 0, 0, 1]
  | .fivePhaseFiveWire, 2 => [0, 1, 0, 1, 1]
  | .fivePhaseFiveWire, 3 => [0, 1, 0, 1, 0]
  | .fivePhaseFiveWire, 4 => [1, 1, 0, 1, 0]
  | .fivePhaseFiveWire, 5 => [1, 0, 0, 1, 0]
  | .fivePhaseFiveWire, 6 => [1, 0, 1, 1, 0]
  | .fivePhaseFiveWire, 7 => [1, 0, 1, 0, 0]
  | .fivePhaseFiveWire, 8 => [1, 0, 1, 0, 1]
  | .fivePhaseFiveWire, 9 => [0, 0, 1, 0, 1]
  | _, _ => []

/-- Motor pins of a driver, in order, as many as `pin_count`. -/
def Stepper.motorPins (s : Stepper) : List Nat :=
  List.take s.pin_count
    [s.motor_pin_1, s.motor_pin_2, s.motor_pin_3, s.motor_pin_4,
     s.motor_pin_5]

/-- Pacing discipline of a transition trace: starting from the timestamp
`last`, every transition's clock sample is at least `delay` later (in
32-bit unsigned arithmetic) than the previously recorded timestamp, and
each transition's sample becomes the reference point for the next one. -/
def paced (delay : Nat) : Nat → List TransitionEvent → Prop
  | _, [] => True
  | last, e :: rest => delay ≤ usub e.now last ∧ paced delay e.now rest


/-! ### Arithmetic helper lemmas for the phase-index update -/

theorem emod_succ (n S : Int) : (n + 1) % S = (n % S + 1) % S := by
  conv_lhs => rw [← Int.emod_add_ediv n S]
  rw [add_right_comm, Int.add_mul_emod_self_left]

theorem fwd_step (S n : Int) (hS : 0 < S) :
    nextStepNumber 1 S (n % S) = (n + 1) % S := by
  have h0 : 0 ≤ n % S := Int.emod_nonneg n (by omega)
  have h1 : n % S < S := Int.emod_lt_of_pos n hS
  rw [emod_succ n S]
  unfold nextStepNumber
  rw [if_pos rfl]
  by_cases hc : n % S + 1 = S
  · rw [if_pos hc, hc, Int.emod_self]
  · have e : (n % S + 1) % S = n % S + 1 :=
      Int.emod_eq_of_lt (by omega) (by omega)
    rw [if_neg hc, e]

theorem rev_step (S n : Int) (hS : 0 < S) :
    nextStepNumber 0 S ((S - n % S) % S) = (S - (n + 1) % S) % S := by
  have h0 : 0 ≤ n % S := Int.emod_nonneg n (by omega)
  have h1 : n % S < S := Int.emod_lt_of_pos n hS
  rw [emod_succ n S]
  set r := n % S with hr
  unfold nextStepNumber
  rw [if_neg (by decide : ¬ (0 : Int) = 1)]
  by_cases hm : r = 0
  · rw [hm, sub_zero, Int.emod_self, if_pos rfl]
    by_cases hS1 : S = 1
    · subst hS1; decide
    · have e1 : ((0 : Int) + 1) % S = 1 := by
        rw [zero_add]; exact Int.emod_eq_of_lt (by omega) (by omega)
      have e2 : (S - 1) % S = S - 1 := Int.emod_eq_of_lt (by omega) (by omega)
      rw [e1, e2]
  · have hrr : (S - r) % S = S - r := Int.emod_eq_of_lt (by omega) (by omega)
    rw [hrr, if_neg (by omega : ¬ S - r = 0)]
    by_cases hc : r + 1 = S
    · have e1 : (r + 1) % S = 0 := by rw [hc]; exact Int.emod_self
      rw [e1, sub_zero, Int.emod_self]
      omega
    · have e1 : (r + 1) % S = r + 1 := Int.emod_eq_of_lt (by omega) (by omega)
      have e2 : (S - (r + 1)) % S = S - (r + 1) :=
        Int.emod_eq_of_lt (by omega) (by omega)
      rw [e1, e2]
      omega

theorem fwd_iter (S : Int) (hS : 0 < S) (N : Nat) :
    (nextStepNumber 1 S)^[N] 0 = (N : Int) % S := by
  induction N with
  | zero => simp
  | succ k ih =>
    rw [Function.iterate_succ_apply', ih, fwd_step S k hS]
    push_cast
    ring_nf

theorem rev_iter (S : Int) (hS : 0 < S) (N : Nat) :
    (nextStepNumber 0 S)^[N] 0 = (S - (N : Int) % S) % S := by
  induction N with
  | zero => simp
  | succ k ih =>
    rw [Function.iterate_succ_apply', ih, rev_step S k hS]
    push_cast
    ring_nf

theorem nextStepNumber_range (d S x : Int) (h0 : 0 ≤ x) (h1 : x < S) :
    0 ≤ nextStepNumber d S x ∧ nextStepNumber d S x < S := by
  simp only [nextStepNumber]
  split_ifs <;> omega

theorem iter_nextStepNumber_range (d S : Int) (k : Nat) (x : Int)
    (h0 : 0 ≤ x) (h1 : x < S) :
    0 ≤ (nextStepNumber d S)^[k] x ∧ (nextStepNumber d S)^[k] x < S := by
  induction k generalizing x with
  | zero => simpa using ⟨h0, h1⟩
  | succ n ih =>
    rw [Function.iterate_succ_apply]
    exact ih (nextStepNumber d S x) (nextStepNumber_range d S x h0 h1).1
      (nextStepNumber_range d S x h0 h1).2

theorem rev_fwd (S x : Int) (h0 : 0 ≤ x) (h1 : x < S) :
    nextStepNumber 0 S (nextStepNumber 1 S x) = x := by
  simp only [nextStepNumber]
  split_ifs <;> omega

theorem rev_fwd_iter (S : Int) (K : Nat) (x : Int) (h0 : 0 ≤ x)
    (h1 : x < S) :
    (nextStepNumber 0 S)^[K] ((nextStepNumber 1 S)^[K] x) = x := by
  induction K generalizing x with
  | zero => simp
  | succ k ih =>
    rw [Function.iterate_succ_apply (nextStepNumber 1 S),
        Function.iterate_succ_apply' (nextStepNumber 0 S)]
    have hx := nextStepNumber_range 1 S x h0 h1
    rw [ih (nextStepNumber 1 S x) hx.1 hx.2]
    exact rev_fwd S x h0 h1


/-! ### Structural lemmas about the step loop -/

theorem step_zero_eq (s : Stepper) (clocks : List Nat) :
    s.step 0 clocks = (s, []) := by
  cases clocks <;> simp [Stepper.step, stepLoop]

theorem step_pos_eq (s : Stepper) (n : Int) (clocks : List Nat)
    (h : 0 < n) :
    s.step n clocks = stepLoop clocks { s with direction := 1 } n.natAbs := by
  simp only [Stepper.step, if_pos h, if_neg (by omega : ¬ n < 0)]

theorem step_neg_eq (s : Stepper) (n : Int) (clocks : List Nat)
    (h : n < 0) :
    s.step n clocks = stepLoop clocks { s with direction := 0 } n.natAbs := by
  simp only [Stepper.step, if_neg (by omega : ¬ n > 0), if_pos h]

theorem step_eq_stepLoop (s : Stepper) (k : Int) (clocks : List Nat) :
    ∃ d : Int, s.step k clocks = stepLoop clocks { s with direction := d }
      k.natAbs := by
  by_cases hp : 0 < k
  · exact ⟨1, step_pos_eq s k clocks hp⟩
  by_cases hn : k < 0
  · exact ⟨0, step_neg_eq s k clocks hn⟩
  · refine ⟨s.direction, ?_⟩
    simp only [Stepper.step, if_neg (by omega : ¬ k > 0), if_neg hn]

theorem stepLoop_spec (clocks : List Nat) (s : Stepper) (sl : Nat) :
    (stepLoop clocks s sl).1.direction = s.direction ∧
    (stepLoop clocks s sl).1.number_of_steps = s.number_of_steps ∧
    (stepLoop clocks s sl).1.step_delay = s.step_delay ∧
    (stepLoop clocks s sl).1.pin_count = s.pin_count ∧
    (stepLoop clocks s sl).2.length ≤ sl ∧
    (stepLoop clocks s sl).1.step_number =
      (nextStepNumber s.direction s.number_of_steps)^[(stepLoop clocks s
        sl).2.length] s.step_number ∧
    (stepLoop clocks s sl).1.last_step_time =
      ((stepLoop clocks s sl).2.map (fun e => e.now)).getLastD
        s.last_step_time ∧
    paced s.step_delay s.last_step_time (stepLoop clocks s sl).2 := by
  induction clocks generalizing s sl with
  | nil => cases sl <;> simp [stepLoop, paced]
  | cons now rest ih =>
    cases sl with
    | zero => simp [stepLoop, paced]
    | succ k =>
      by_cases hg : s.step_delay ≤ usub now s.last_step_time
      · simp only [stepLoop, if_pos hg]
        obtain ⟨hd, hn, hdel, hpc, hlen, hsn, hlast, hp⟩ :=
          ih { s with last_step_time := now, step_number :=
            nextStepNumber s.direction s.number_of_steps s.step_number } k
        refine ⟨hd, hn, hdel, hpc, by simpa using Nat.succ_le_succ hlen,
          ?_, ?_, ?_⟩
        · simpa [Function.iterate_succ_apply] using hsn
        · simpa only [List.map_cons, List.getLastD_cons] using hlast
        · exact ⟨hg, hp⟩
      · simp only [stepLoop, if_neg hg]
        exact ih s (k + 1)


/-! ### Claim theorems -/

/-- C7: `advance(0)` performs zero pin writes and zero phase transitions
and leaves every field of the driver state (in particular
`currentPhaseIndex`, `direction`, `lastTransitionTimestamp` and
`stepIntervalMicroseconds`) unchanged, in every driver state: `step 0`
returns the state itself together with an empty transition trace. -/
theorem advance_zero_noop (s : Stepper) (clocks : List Nat) :
    s.step 0 clocks = (s, []) :=
  step_zero_eq s clocks

/-- C10, counterexample: the driver's time source does not return
`(clock / CLOCKS_PER_SEC) * 1000000` for every reading, and its result is
not always a multiple of 1000000: at a reading of 4295 elapsed seconds
(here `CLOCKS_PER_SEC = 1`, reading 4295) the 32-bit product wraps to
`4295000000 mod 2 ^ 32 = 32704`. -/
theorem micros_whole_second_counterexample :
    micros 4295 1 ≠ 4295 / 1 * 1000000 ∧ ¬ 1000000 ∣ micros 4295 1 := by
  decide

/-- C10, amended: the driver's time source returns
`(clock / CLOCKS_PER_SEC) * 1000000` reduced modulo `2 ^ 32`; whenever
that product fits in 32 bits (readings below about 4295 seconds of CPU
time) the returned value is exactly the product, an integer multiple of
1000000, so within that regime the timestamps pacing `advance` move only
in whole-second increments. -/
theorem micros_whole_second_amended (c cps : Nat)
    (h : c / cps * 1000000 < 2 ^ 32) :
    micros c cps = c / cps * 1000000 ∧ 1000000 ∣ micros c cps := by
  unfold micros
  rw [Nat.mod_eq_of_lt h]
  exact ⟨rfl, dvd_mul_left 1000000 (c / cps)⟩

/-- Witness for the amended C10 theorem: a reading of 4 elapsed seconds
at the 1000-ticks-per-second rate of the source's comment. -/
theorem micros_whole_second_amended_witness :
    micros 4000 1000 = 4000 / 1000 * 1000000 ∧
    1000000 ∣ micros 4000 1000 :=
  micros_whole_second_amended 4000 1000 (by decide)

/-- C3, counterexample: at the concrete pin list `[16,17,18,19,20]` the
logical pin 20 is unresolvable (`mapFromInt` yields the sentinel
`GPIO_NUM_MAX`), yet the five-wire constructor does not fail: it returns a
fully constructed driver holding the sentinel handle and still issues its
`gpio_config` call with a bit mask covering all five raw pin numbers, so
GPIO outputs are configured. -/
theorem initialize_invalid_pin_counterexample :
    mapFromInt 20 = GPIO_NUM_MAX ∧
    (mkFiveWire 200 16 17 18 19 20 0).1.motor_pin_5 = GPIO_NUM_MAX ∧
    (mkFiveWire 200 16 17 18 19 20 0).1.pin_count = 5 ∧
    (mkFiveWire 200 16 17 18 19 20 0).2 =
      2 ^ 16 + 2 ^ 17 + 2 ^ 18 + 2 ^ 19 + 2 ^ 20 := by
  decide

/-- C3, amended: when a requested logical pin cannot be resolved,
`mapFromInt` returns the sentinel `GPIO_NUM_MAX` and the constructor does
not fail: it stores the sentinel as the pin handle and unconditionally
calls `gpio_config` with the bit mask built from the raw pin numbers, so
the driver is constructed anyway and GPIO outputs are configured. -/
theorem initialize_invalid_pin_no_failure (n p1 p2 p3 p4 p5 : Int)
    (d : Nat) (h : mapFromInt p5 = GPIO_NUM_MAX) :
    (mkFiveWire n p1 p2 p3 p4 p5 d).1.motor_pin_5 = GPIO_NUM_MAX ∧
    (mkFiveWire n p1 p2 p3 p4 p5 d).2 =
      (1 <<< p1.toNat) ||| (1 <<< p2.toNat) ||| (1 <<< p3.toNat) |||
        (1 <<< p4.toNat) ||| (1 <<< p5.toNat) :=
  ⟨h, rfl⟩

/-- Witness for the amended C3 theorem at the concrete scenario pin list
`[16,17,18,19,20]`. -/
theorem initialize_invalid_pin_no_failure_witness :
    (mkFiveWire 200 16 17 18 19 20 0).1.motor_pin_5 = GPIO_NUM_MAX ∧
    (mkFiveWire 200 16 17 18 19 20 0).2 =
      (1 <<< (16 : Int).toNat) ||| (1 <<< (17 : Int).toNat) |||
        (1 <<< (18 : Int).toNat) ||| (1 <<< (19 : Int).toNat) |||
        (1 <<< (20 : Int).toNat) :=
  initialize_invalid_pin_no_failure 200 16 17 18 19 20 0 (by decide)

/-- C4, counterexample: in the scenario `initialize(200,[16,17,18,19,20])`
followed by `advance(10)` (taking the uninitialized pacing interval as 0
and a clock trace that lets every iteration step), the driver does not
apply the phase patterns for indices 0 through 9 in that order: the source
increments `step_number` before calling `stepMotor`, so the first applied
index is 1, not 0. -/
theorem five_wire_scenario_counterexample :
    ((mkFiveWire 200 16 17 18 19 20 0).1.step 10
        (List.replicate 10 0)).2.map (fun e => e.thisStep) ≠
      [0, 1, 2, 3, 4, 5, 6, 7, 8, 9] ∧
    ((mkFiveWire 200 16 17 18 19 20 0).1.step 10
        (List.replicate 10 0)).2.map (fun e => e.writes.map Prod.snd) ≠
      ([0, 1, 2, 3, 4, 5, 6, 7, 8, 9] : List Int).map
        (fun i => specPhaseTable Wiring.fivePhaseFiveWire i) := by
  decide

/-- C4, amended: in the scenario `initialize(200,[16,17,18,19,20])`
followed by `advance(10)` (uninitialized pacing interval taken as 0, clock
trace letting every iteration step), the driver applies the phase patterns
for indices 1 through 9 and then 0, in that order, each one the bit-exact
row of the ten-row five-phase table, written to the resolved pin handles
in pin order (pin 20 being unresolvable, its writes go to the sentinel
`GPIO_NUM_MAX`), and ends at phase index 10. -/
theorem five_wire_scenario_amended :
    ((mkFiveWire 200 16 17 18 19 20 0).1.step 10
        (List.replicate 10 0)).2.map (fun e => e.thisStep) =
      [1, 2, 3, 4, 5, 6, 7, 8, 9, 0] ∧
    ((mkFiveWire 200 16 17 18 19 20 0).1.step 10
        (List.replicate 10 0)).2.map (fun e => e.writes.map Prod.snd) =
      ([1, 2, 3, 4, 5, 6, 7, 8, 9, 0] : List Int).map
        (fun i => specPhaseTable Wiring.fivePhaseFiveWire i) ∧
    ((mkFiveWire 200 16 17 18 19 20 0).1.step 10
        (List.replicate 10 0)).2.map (fun e => e.writes.map Prod.fst) =
      List.replicate 10 [16, 17, 18, 19, GPIO_NUM_MAX] ∧
    ((mkFiveWire 200 16 17 18 19 20 0).1.step 10
        (List.replicate 10 0)).1.step_number = 10 := by
  decide


/-- C1: for every wiring variant and every in-range phase index,
`stepMotor(index)` applies to the motor pins, in pin order, exactly the
binary vector of the spec phase tables: its write list is the pin list
zipped with the spec table row for that index. -/
theorem phase_tables_bit_exact (s : Stepper) (w : Wiring)
    (hpc : s.pin_count = wiringPinCount w) (i : Int) (h0 : 0 ≤ i)
    (h1 : i < (cycleLength w : Int)) :
    s.stepMotor i = s.motorPins.zip (specPhaseTable w i) := by
  obtain ⟨sn, dir, lst, nos, sd, pc, m1, m2, m3, m4, m5⟩ := s
  cases w <;> dsimp only [wiringPinCount, cycleLength] at hpc h1 <;>
    subst hpc <;> norm_cast at h1 <;> interval_cases i <;> rfl

/-- Witness for the C1 theorem: the five-wire driver of the demo scenario
at phase index 3. -/
theorem phase_tables_bit_exact_witness :
    (mkFiveWire 200 16 17 18 19 21 0).1.stepMotor 3 =
      (mkFiveWire 200 16 17 18 19 21 0).1.motorPins.zip
        (specPhaseTable Wiring.fivePhaseFiveWire 3) :=
  phase_tables_bit_exact (mkFiveWire 200 16 17 18 19 21 0).1
    Wiring.fivePhaseFiveWire (by decide) 3 (by decide) (by decide)


/-- C2: for every driver and every stepsPerRevolution S > 0, starting from
phase index 0, a run of `step` that has taken N forward steps leaves
`step_number` at `N mod S`, and a run that has taken N reverse steps
leaves it at `(S - N mod S) mod S`.  A run having taken its N steps is
expressed by its transition trace having length N. -/
theorem phase_index_after_n_steps (s : Stepper) (N : Nat)
    (clocksF clocksR : List Nat) (hS : 0 < s.number_of_steps)
    (hsn : s.step_number = 0)
    (hF : (s.step (N : Int) clocksF).2.length = N)
    (hR : (s.step (-(N : Int)) clocksR).2.length = N) :
    (s.step (N : Int) clocksF).1.step_number =
      (N : Int) % s.number_of_steps ∧
    (s.step (-(N : Int)) clocksR).1.step_number =
      (s.number_of_steps - (N : Int) % s.number_of_steps) %
        s.number_of_steps := by
  by_cases hN : N = 0
  · subst hN
    rw [Nat.cast_zero] at hF hR ⊢
    rw [neg_zero] at hR ⊢
    rw [step_zero_eq, step_zero_eq]
    refine ⟨by simp [hsn], ?_⟩
    simp [hsn, Int.emod_self]
  · have hNpos : (0 : Int) < (N : Int) := by
      exact_mod_cast Nat.pos_of_ne_zero hN
    have hNneg : (-(N : Int)) < 0 := by omega
    constructor
    · rw [step_pos_eq s (N : Int) clocksF hNpos] at hF ⊢
      obtain ⟨_, _, _, _, _, hnum, _, _⟩ :=
        stepLoop_spec clocksF { s with direction := 1 } (N : Int).natAbs
      rw [hnum, hF]
      simpa [hsn] using fwd_iter s.number_of_steps hS N
    · rw [step_neg_eq s (-(N : Int)) clocksR hNneg] at hR ⊢
      obtain ⟨_, _, _, _, _, hnum, _, _⟩ :=
        stepLoop_spec clocksR { s with direction := 0 }
          (-(N : Int)).natAbs
      rw [hnum, hR]
      simpa [hsn] using rev_iter s.number_of_steps hS N

/-- Witness for the C2 theorem: the five-wire demo driver, three forward
and three reverse steps under an always-permissive clock trace. -/
theorem phase_index_after_n_steps_witness :
    ((mkFiveWire 200 16 17 18 19 20 0).1.step ((3 : Nat) : Int)
        (List.replicate 3 0)).1.step_number =
      ((3 : Nat) : Int) %
        (mkFiveWire 200 16 17 18 19 20 0).1.number_of_steps ∧
    ((mkFiveWire 200 16 17 18 19 20 0).1.step (-((3 : Nat) : Int))
        (List.replicate 3 0)).1.step_number =
      ((mkFiveWire 200 16 17 18 19 20 0).1.number_of_steps -
          ((3 : Nat) : Int) %
            (mkFiveWire 200 16 17 18 19 20 0).1.number_of_steps) %
        (mkFiveWire 200 16 17 18 19 20 0).1.number_of_steps :=
  phase_index_after_n_steps (mkFiveWire 200 16 17 18 19 20 0).1 3
    (List.replicate 3 0) (List.replicate 3 0) (by decide) (by decide)
    (by decide) (by decide)

/-- C6: from every reachable driver state (phase index within range),
`advance(+K)` followed by `advance(-K)` returns `step_number` to its value
before the pair of calls, for every K ≥ 0, whenever both runs take all
their K steps. -/
theorem advance_round_trip (s : Stepper) (K : Nat)
    (clocks1 clocks2 : List Nat) (h0 : 0 ≤ s.step_number)
    (h1 : s.step_number < s.number_of_steps)
    (hF : (s.step (K : Int) clocks1).2.length = K)
    (hR : ((s.step (K : Int) clocks1).1.step (-(K : Int))
      clocks2).2.length = K) :
    ((s.step (K : Int) clocks1).1.step (-(K : Int))
      clocks2).1.step_number = s.step_number := by
  by_cases hK : K = 0
  · subst hK
    simp [step_zero_eq]
  · have hKpos : (0 : Int) < (K : Int) := by
      exact_mod_cast Nat.pos_of_ne_zero hK
    have hKneg : (-(K : Int)) < 0 := by omega
    rw [step_pos_eq s (K : Int) clocks1 hKpos] at hF hR ⊢
    obtain ⟨_, hn1, _, _, _, hnum1, _, _⟩ :=
      stepLoop_spec clocks1 { s with direction := 1 } (K : Int).natAbs
    rw [step_neg_eq _ (-(K : Int)) clocks2 hKneg] at hR ⊢
    obtain ⟨_, _, _, _, _, hnum2, _, _⟩ :=
      stepLoop_spec clocks2
        { (stepLoop clocks1 { s with direction := 1 }
            (K : Int).natAbs).1 with direction := 0 }
        (-(K : Int)).natAbs
    rw [hnum2, hR, hnum1, hF, hn1]
    simpa using rev_fwd_iter s.number_of_steps K s.step_number h0 h1

/-- Witness for the C6 theorem: the five-wire demo driver, two steps
forward then two steps back under an always-permissive clock trace. -/
theorem advance_round_trip_witness :
    (((mkFiveWire 200 16 17 18 19 20 0).1.step ((2 : Nat) : Int)
        (List.replicate 2 0)).1.step (-((2 : Nat) : Int))
        (List.replicate 2 0)).1.step_number =
      (mkFiveWire 200 16 17 18 19 20 0).1.step_number :=
  advance_round_trip (mkFiveWire 200 16 17 18 19 20 0).1 2
    (List.replicate 2 0) (List.replicate 2 0) (by decide) (by decide)
    (by decide) (by decide)

/-- C5: with stepsPerRevolution positive, `step_number` lies in
`[0, number_of_steps)` in the initial state produced by each constructor
and is preserved by `setSpeed`, by `step` (advance), and by `version`
(which is pure and touches no state). -/
theorem phase_index_invariant (s : Stepper) (w k : Int)
    (clocks : List Nat) (h0 : 0 ≤ s.step_number)
    (h1 : s.step_number < s.number_of_steps) :
    (0 ≤ (s.setSpeed w).step_number ∧
      (s.setSpeed w).step_number < (s.setSpeed w).number_of_steps) ∧
    (0 ≤ (s.step k clocks).1.step_number ∧
      (s.step k clocks).1.step_number <
        (s.step k clocks).1.number_of_steps) ∧
    (s.version = 1 ∧ 0 ≤ s.step_number ∧
      s.step_number < s.number_of_steps) ∧
    (∀ S p1 p2 d, 0 < S →
      0 ≤ (mkTwoWire S p1 p2 d).1.step_number ∧
      (mkTwoWire S p1 p2 d).1.step_number <
        (mkTwoWire S p1 p2 d).1.number_of_steps) ∧
    (∀ S p1 p2 p3 p4 d, 0 < S →
      0 ≤ (mkFourWire S p1 p2 p3 p4 d).1.step_number ∧
      (mkFourWire S p1 p2 p3 p4 d).1.step_number <
        (mkFourWire S p1 p2 p3 p4 d).1.number_of_steps) ∧
    (∀ S p1 p2 p3 p4 p5 d, 0 < S →
      0 ≤ (mkFiveWire S p1 p2 p3 p4 p5 d).1.step_number ∧
      (mkFiveWire S p1 p2 p3 p4 p5 d).1.step_number <
        (mkFiveWire S p1 p2 p3 p4 p5 d).1.number_of_steps) := by
  refine ⟨⟨h0, h1⟩, ?_, ⟨rfl, h0, h1⟩, ?_, ?_, ?_⟩
  · obtain ⟨d, hd⟩ := step_eq_stepLoop s k clocks
    rw [hd]
    obtain ⟨_, hn, _, _, _, hnum, _, _⟩ :=
      stepLoop_spec clocks { s with direction := d } k.natAbs
    rw [hnum, hn]
    exact iter_nextStepNumber_range _ s.number_of_steps _ s.step_number
      h0 h1
  · exact fun S p1 p2 d hS => ⟨le_refl 0, hS⟩
  · exact fun S p1 p2 p3 p4 d hS => ⟨le_refl 0, hS⟩
  · exact fun S p1 p2 p3 p4 p5 d hS => ⟨le_refl 0, hS⟩

/-- Witness for the C5 theorem: the four-wire demo driver, speed 60 rpm,
an advance of five steps under an always-permissive clock trace. -/
theorem phase_index_invariant_witness :
    (0 ≤ ((mkFourWire 200 16 17 18 19 7).1.setSpeed 60).step_number ∧
      ((mkFourWire 200 16 17 18 19 7).1.setSpeed 60).step_number <
        ((mkFourWire 200 16 17 18 19 7).1.setSpeed 60).number_of_steps) ∧
    (0 ≤ ((mkFourWire 200 16 17 18 19 7).1.step 5
        (List.replicate 5 0)).1.step_number ∧
      ((mkFourWire 200 16 17 18 19 7).1.step 5
          (List.replicate 5 0)).1.step_number <
        ((mkFourWire 200 16 17 18 19 7).1.step 5
          (List.replicate 5 0)).1.number_of_steps) ∧
    ((mkFourWire 200 16 17 18 19 7).1.version = 1 ∧
      0 ≤ (mkFourWire 200 16 17 18 19 7).1.step_number ∧
      (mkFourWire 200 16 17 18 19 7).1.step_number <
        (mkFourWire 200 16 17 18 19 7).1.number_of_steps) ∧
    (∀ S p1 p2 d, 0 < S →
      0 ≤ (mkTwoWire S p1 p2 d).1.step_number ∧
      (mkTwoWire S p1 p2 d).1.step_number <
        (mkTwoWire S p1 p2 d).1.number_of_steps) ∧
    (∀ S p1 p2 p3 p4 d, 0 < S →
      0 ≤ (mkFourWire S p1 p2 p3 p4 d).1.step_number ∧
      (mkFourWire S p1 p2 p3 p4 d).1.step_number <
        (mkFourWire S p1 p2 p3 p4 d).1.number_of_steps) ∧
    (∀ S p1 p2 p3 p4 p5 d, 0 < S →
      0 ≤ (mkFiveWire S p1 p2 p3 p4 p5 d).1.step_number ∧
      (mkFiveWire S p1 p2 p3 p4 p5 d).1.step_number <
        (mkFiveWire S p1 p2 p3 p4 p5 d).1.number_of_steps) :=
  phase_index_invariant (mkFourWire 200 16 17 18 19 7).1 60 5
    (List.replicate 5 0) (by decide) (by decide)

/-- C9: during every execution of `step`, the transition trace is paced:
each taken transition's freshly sampled clock value is at least
`step_delay` later (in the loop's unsigned 32-bit arithmetic) than the
previously recorded `last_step_time`, the sampled value becomes the
reference point for the next transition, and the final `last_step_time`
is the last taken sample (or the initial one when no step was taken). -/
theorem advance_pacing (s : Stepper) (k : Int) (clocks : List Nat) :
    paced s.step_delay s.last_step_time (s.step k clocks).2 ∧
    (s.step k clocks).1.last_step_time =
      ((s.step k clocks).2.map (fun e => e.now)).getLastD
        s.last_step_time := by
  obtain ⟨d, hd⟩ := step_eq_stepLoop s k clocks
  rw [hd]
  obtain ⟨_, _, _, _, _, _, hlast, hp⟩ :=
    stepLoop_spec clocks { s with direction := d } k.natAbs
  exact ⟨hp, hlast⟩

/-- Helper for C8: `setSpeed` on nonnegative cast arguments computes the
natural-number double division reduced mod `2 ^ 32`. -/
theorem setSpeed_natCast (s : Stepper) (a b : Nat)
    (ha : s.number_of_steps = (a : Int)) :
    (s.setSpeed (b : Int)).step_delay = 60000000 / a / b % 2 ^ 32 := by
  simp only [Stepper.setSpeed, ha]
  rfl

/-- C8: for positive rpm (and positive stepsPerRevolution), `setSpeed`
sets `step_delay` to `60000000 / (stepsPerRevolution * rpm)` under the
implementation's integer arithmetic; in particular with
stepsPerRevolution 200, `setSpeed 60` yields exactly 5000. -/
theorem set_speed_formula (s : Stepper) (rpm : Int) (hrpm : 0 < rpm)
    (hS : 0 < s.number_of_steps) :
    (s.setSpeed rpm).step_delay =
      60000000 / (s.number_of_steps.toNat * rpm.toNat) ∧
    (s.number_of_steps = 200 → (s.setSpeed 60).step_delay = 5000) := by
  constructor
  · have ha : s.number_of_steps = ((s.number_of_steps.toNat : Nat) : Int) :=
      (Int.toNat_of_nonneg (by omega)).symm
    obtain ⟨b, hb⟩ : ∃ b : Nat, rpm = (b : Int) :=
      ⟨rpm.toNat, (Int.toNat_of_nonneg (by omega)).symm⟩
    subst hb
    rw [setSpeed_natCast s s.number_of_steps.toNat b ha]
    rw [show ((b : Int)).toNat = b from rfl]
    have hlt : 60000000 / s.number_of_steps.toNat / b < 2 ^ 32 :=
      lt_of_le_of_lt (le_trans (Nat.div_le_self _ _)
        (Nat.div_le_self _ _)) (by norm_num)
    rw [Nat.mod_eq_of_lt hlt, Nat.div_div_eq_div_mul]
  · intro h200
    have h : (s.setSpeed 60).step_delay = ((((60 * 1000 * 1000 : Int).tdiv
        (200 : Int)).tdiv 60).emod (2 ^ 32)).toNat := by
      simp only [Stepper.setSpeed, h200]
    rw [h]
    decide

/-- Witness for the C8 theorem: the demo configuration, 200 steps per
revolution at 60 rpm. -/
theorem set_speed_formula_witness :
    ((mkFourWire 200 16 17 18 19 0).1.setSpeed 60).step_delay =
      60000000 / ((mkFourWire 200 16 17 18 19 0).1.number_of_steps.toNat *
        (60 : Int).toNat) ∧
    ((mkFourWire 200 16 17 18 19 0).1.number_of_steps = 200 →
      ((mkFourWire 200 16 17 18 19 0).1.setSpeed 60).step_delay = 5000) :=
  set_speed_formula (mkFourWire 200 16 17 18 19 0).1 60 (by decide)
    (by decide)

end PourBot
